import Mathlib

/-!
Verification development for the card-number utilities of `src/upcc.py`
(Telegram bot glue is out of scope): the brand classifier
`card_brand_type`, the Luhn check-digit primitive `luhn_checksum`, and the
two generators `random_cc_as_string` / `random_bin_cc`.

Python strings are modelled as `List Char`; Python `int` is modelled on the
ASCII-digit strings this program feeds it (any other character raises
`ValueError`, modelled as `none`); the random sources (`random.choice`,
`secrets.choice`, `random.randint`, `secrets.randbelow`) are modelled as
explicit oracle parameters, so theorems quantifying over the oracles speak
about every possible outcome of the randomness.
-/

/-- Python `s.startswith(p)` on strings as char lists: `pyStartswith p s`. -/
def pyStartswith : List Char → List Char → Bool
  | [], _ => true
  | _ :: _, [] => false
  | p :: ps, c :: cs => p == c && pyStartswith ps cs

/-- Numeric value of an ASCII digit character (`'0'` is code 48). -/
def digitVal (c : Char) : Nat := c.toNat - 48

/-- Python `int(c)` for a one-character string: the value for an ASCII digit,
`none` (a `ValueError`) otherwise. -/
def pyDigit (c : Char) : Option Nat :=
  if 48 ≤ c.toNat ∧ c.toNat ≤ 57 then some (c.toNat - 48) else none

/-- Python `list(map(int, s))` over the characters of `s`: the digit values,
or `none` as soon as one character is not an ASCII digit (the `ValueError`
raised by `int`). -/
def pyIntMap : List Char → Option (List Nat)
  | [] => some []
  | c :: cs =>
    match pyDigit c, pyIntMap cs with
    | some d, some ds => some (d :: ds)
    | _, _ => none

/-- Python `int(s)` on the strings this program feeds it: the decimal value of
a non-empty all-ASCII-digit string, `none` (a `ValueError`) otherwise — in
particular `int("")` fails. -/
def pyInt (s : List Char) : Option Nat :=
  if s = [] then none
  else (pyIntMap s).map (fun ds => ds.foldl (fun a d => a * 10 + d) 0)

/-- The EMOJIS dict (lines 24-34), restricted to its keys.  The glyph strings
are the literal characters present in the source file (they are mojibake of
emoji, reproduced here byte-for-byte). -/
def EMOJIS : String → String
  | "visa" => "ðŸŸ¦ VISA"
  | "mastercard" => "ðŸŸ¥ MC"
  | "amex" => "ðŸŸ© AMEX"
  | "discover" => "ðŸŸ¨ DISC"
  | "diners" => "ðŸ½ DINERS"
  | "jcb" => "ðŸŸª JCB"
  | "unionpay" => "ðŸ‡¨ðŸ‡³ UPay"
  | "mir" => "ðŸ‡·ðŸ‡º MIR"
  | "unknown" => "ðŸ’³ CARD"
  | _ => ""

/-- `card_brand_type` (lines 68-86).  The result is `none` when the call
raises: on line 72 Python evaluates `int(cc[:4])` whenever the five
startswith checks fail, and that conversion raises `ValueError` on a string
that is not a non-empty digit string.  When the parsed value falls outside
[2221, 2720] evaluation falls through to the remaining rules. -/
def card_brand_type (cc : List Char) : Option (String × String) :=
  if pyStartswith ['4'] cc then some (EMOJIS "visa", "VISA")
  else if pyStartswith ['5', '1'] cc || pyStartswith ['5', '2'] cc ||
          pyStartswith ['5', '3'] cc || pyStartswith ['5', '4'] cc ||
          pyStartswith ['5', '5'] cc then some (EMOJIS "mastercard", "MASTERCARD")
  else
    match pyInt (cc.take 4) with
    | none => none
    | some n =>
      if 2221 ≤ n ∧ n ≤ 2720 then some (EMOJIS "mastercard", "MASTERCARD")
      else if pyStartswith ['3', '4'] cc || pyStartswith ['3', '7'] cc then
        some (EMOJIS "amex", "AMEX")
      else if pyStartswith ['6'] cc then some (EMOJIS "discover", "DISCOVER")
      else if pyStartswith ['3', '0', '0'] cc || pyStartswith ['3', '0', '1'] cc ||
              pyStartswith ['3', '0', '2'] cc || pyStartswith ['3', '0', '3'] cc ||
              pyStartswith ['3', '0', '4'] cc || pyStartswith ['3', '0', '5'] cc ||
              pyStartswith ['3', '6'] cc || pyStartswith ['3', '8'] cc ||
              pyStartswith ['3', '9'] cc then some (EMOJIS "diners", "DINERS")
      else if pyStartswith ['3', '5'] cc then some (EMOJIS "jcb", "JCB")
      else if pyStartswith ['6', '2'] cc then some (EMOJIS "unionpay", "UNIONPAY")
      else if pyStartswith ['2', '2', '0'] cc then some (EMOJIS "mir", "MIR")
      else some (EMOJIS "unknown", "UNKNOWN")

/-- One iteration of the `luhn_checksum` loop (lines 147-154): the
contribution of digit `d` found at zero-based index `i` of the reversed
list — even index: unchanged; odd index: doubled, minus 9 when above 9. -/
def luhnStep (i d : Nat) : Nat :=
  if i % 2 == 0 then d else if d * 2 > 9 then d * 2 - 9 else d * 2

/-- The loop total of `luhn_checksum` over an already-reversed digit list. -/
def luhnTotalRev (l : List Nat) : Nat :=
  (l.enum.map (fun p => luhnStep p.1 p.2)).sum

/-- `luhn_checksum` (lines 143-155) as a value: reverse the digits, total the
per-index contributions, return `(10 - total % 10) % 10`. -/
def luhn_checksum (digits : List Nat) : Nat :=
  (10 - (luhnTotalRev digits.reverse) % 10) % 10

/-- Modelled from the spec (§3): Luhn validation of a full digit sequence —
the sum of the transformed digits (rightmost unchanged, every second digit
from the right doubled, minus 9 when above 9) is ≡ 0 (mod 10).  This is the
standard Luhn check; the repository has no validator of its own. -/
def luhnValidate (digits : List Nat) : Bool :=
  luhnTotalRev digits.reverse % 10 == 0

/-- The two list objects a call of `luhn_checksum` can reach: the caller's
argument object (e.g. the generators' `cc_list`) and the fresh copy made on
line 144.  `localIsCopy` records which object the local name `digits`
currently denotes. -/
structure LuhnCallState where
  callerList : List Nat
  copyList : List Nat
  localIsCopy : Bool
deriving DecidableEq

/-- Call entry: the parameter `digits` is bound to the caller's object. -/
def luhn_enter (arg : List Nat) : LuhnCallState :=
  { callerList := arg, copyList := [], localIsCopy := false }

/-- Line 144, `digits = digits[:]`: rebind the local name to a fresh copy of
the object it currently denotes. -/
def luhn_copy (s : LuhnCallState) : LuhnCallState :=
  { s with copyList := if s.localIsCopy then s.copyList else s.callerList,
           localIsCopy := true }

/-- Line 145, `digits.reverse()`: reverse, in place, the object the local
name currently denotes. -/
def luhn_reverse (s : LuhnCallState) : LuhnCallState :=
  if s.localIsCopy then { s with copyList := s.copyList.reverse }
  else { s with callerList := s.callerList.reverse }

/-- The list object the local name `digits` denotes. -/
def luhn_local (s : LuhnCallState) : List Nat :=
  if s.localIsCopy then s.copyList else s.callerList

/-- A whole call of `luhn_checksum` at the level of mutable list objects:
the state after lines 144-145 have run, paired with the value returned on
line 155. -/
def luhn_checksum_call (arg : List Nat) : LuhnCallState × Nat :=
  let s := luhn_reverse (luhn_copy (luhn_enter arg))
  (s, (10 - (luhnTotalRev (luhn_local s)) % 10) % 10)

/-- Python `str(n)` for a nonnegative integer: its decimal digits. -/
def pyStr (n : Nat) : List Char := Nat.toDigits 10 n

/-- Python `f"{n:02d}"` for a nonnegative integer: zero-pad to width 2. -/
def fmt02 (n : Nat) : List Char :=
  List.replicate (2 - (pyStr n).length) '0' ++ pyStr n

/-- Python `"".join(str(x) for x in l)`. -/
def joinStr (l : List Nat) : List Char := (l.map pyStr).flatten

/-- The brand table of `random_cc_bin_and_length` (lines 97-106):
(string to start from, total length, brand key). -/
def brands : List (List Char × Nat × String) :=
  [(['4'], 16, "visa"),
   (['5', '1'], 16, "mastercard"), (['5', '2'], 16, "mastercard"),
   (['5', '3'], 16, "mastercard"), (['5', '4'], 16, "mastercard"),
   (['5', '5'], 16, "mastercard"),
   (['2', '2', '2', '1'], 16, "mastercard"), (['2', '7', '2', '0'], 16, "mastercard"),
   (['3', '4'], 15, "amex"), (['3', '7'], 15, "amex"),
   (['6', '0', '1', '1'], 16, "discover"), (['6', '5'], 16, "discover"),
   (['3', '5'], 16, "jcb"),
   (['6', '2'], 16, "unionpay")]

/-- The string `"0123456789"` that `secrets.choice` draws from (line 109). -/
def DIGIT_CHARS : List Char :=
  ['0', '1', '2', '3', '4', '5', '6', '7', '8', '9']

/-- `random_cc_bin_and_length` (lines 96-110).  `choice` is the outcome of
`random.choice(brands)` (an index into the table); `padc i` is the outcome
of the i-th `secrets.choice("0123456789")` draw. -/
def random_cc_bin_and_length (choice : Fin brands.length) (padc : Nat → Char) :
    List Char × Nat × String :=
  match brands.get choice with
  | (pfx, length, brand) =>
    (if pfx.length < 6 then pfx ++ (List.range (6 - pfx.length)).map padc else pfx,
     length, brand)

/-- The four fields the generators assemble before formatting them with
`"|"` separators. -/
structure CardRecord where
  cc_number : List Char
  exp_month : List Char
  exp_year : List Char
  cvv : List Char
deriving DecidableEq

/-- The `while len(cc_list) < target: cc_list.append(...)` filler loop of
lines 115-116 / 132-133: `f i` is the outcome of the i-th random digit
draw. -/
def fillTo (l : List Nat) (target : Nat) (f : Nat → Nat) : List Nat :=
  l ++ (List.range (target - l.length)).map f

/-- `random_cc_as_string` (lines 112-124), as the record of its four local
values.  `filler i` models the i-th `secrets.randbelow(10)` draw, `cvvd i`
the i-th `random.randint(0, 9)` CVV draw, `em`/`ey` the expiry draws.
`none` models the `ValueError` `int` would raise on a non-digit character
of the BIN (line 114). -/
def random_cc_record (choice : Fin brands.length) (padc : Nat → Char)
    (filler cvvd : Nat → Nat) (em ey : Nat) : Option CardRecord :=
  match random_cc_bin_and_length choice padc with
  | (bin6, length, brand) =>
    match pyIntMap bin6 with
    | none => none
    | some ds =>
      let cc_list := fillTo ds (length - 1) filler
      let cc_list := cc_list ++ [luhn_checksum cc_list]
      let cvv_len := if brand == "amex" then 4 else 3
      some { cc_number := joinStr cc_list,
             exp_month := fmt02 em,
             exp_year := pyStr ey,
             cvv := joinStr ((List.range cvv_len).map cvvd) }

/-- The `f"{cc_number}|{exp_month}|{exp_year}|{cvv}"` result string of
`random_cc_as_string` (line 124). -/
def random_cc_as_string (choice : Fin brands.length) (padc : Nat → Char)
    (filler cvvd : Nat → Nat) (em ey : Nat) : Option (List Char) :=
  (random_cc_record choice padc filler cvvd em ey).map fun r =>
    r.cc_number ++ '|' :: (r.exp_month ++ '|' :: (r.exp_year ++ '|' :: r.cvv))

/-- Lines 127-129 of `random_bin_cc`: truncate the input to its first 6
characters, then right-pad with `'0'` while shorter than 6. -/
def normalize_bin6 (b : List Char) : List Char :=
  b.take 6 ++ List.replicate (6 - (b.take 6).length) '0'

/-- `random_bin_cc` (lines 126-141), as the record of its four local values.
`filler i` models the i-th `random.randint(0, 9)` filler draw, `cvvd i` the
i-th CVV draw, `em`/`ey` the expiry draws.  `none` models the `ValueError`
raised by `list(map(int, bin6))` (line 131) on a non-digit character. -/
def random_bin_cc_record (bin6 : List Char) (filler cvvd : Nat → Nat)
    (em ey : Nat) : Option CardRecord :=
  let bin6 := normalize_bin6 bin6
  let length := if pyStartswith ['3', '4'] bin6 || pyStartswith ['3', '7'] bin6
    then 15 else 16
  match pyIntMap bin6 with
  | none => none
  | some ds =>
    let cc_list := fillTo ds (length - 1) filler
    let cc_list := cc_list ++ [luhn_checksum cc_list]
    let cvv_len := if pyStartswith ['3', '4'] bin6 || pyStartswith ['3', '7'] bin6
      then 4 else 3
    some { cc_number := joinStr cc_list,
           exp_month := fmt02 em,
           exp_year := pyStr ey,
           cvv := joinStr ((List.range cvv_len).map cvvd) }

/-- The `f"{cc_number}|{exp_month}|{exp_year}|{cvv}"` result string of
`random_bin_cc` (line 141). -/
def random_bin_cc (bin6 : List Char) (filler cvvd : Nat → Nat)
    (em ey : Nat) : Option (List Char) :=
  (random_bin_cc_record bin6 filler cvvd em ey).map fun r =>
    r.cc_number ++ '|' :: (r.exp_month ++ '|' :: (r.exp_year ++ '|' :: r.cvv))

/-! ### Helper lemmas -/

theorem charToNat_inj {a b : Char} (h : a.toNat = b.toNat) : a = b :=
  Char.eq_of_val_eq (UInt32.ext h)

theorem pyStartswith_iff (p s : List Char) :
    pyStartswith p s = true ↔ ∃ t, s = p ++ t := by
  induction p generalizing s with
  | nil => simp [pyStartswith]
  | cons p ps ih =>
    cases s with
    | nil => simp [pyStartswith]
    | cons c cs =>
      simp only [pyStartswith, Bool.and_eq_true, beq_iff_eq, ih, List.cons_append,
        List.cons.injEq]
      constructor
      · rintro ⟨rfl, t, rfl⟩; exact ⟨t, rfl, rfl⟩
      · rintro ⟨t, rfl, rfl⟩; exact ⟨rfl, t, rfl⟩

theorem pyStartswith_self_append (p t : List Char) :
    pyStartswith p (p ++ t) = true :=
  (pyStartswith_iff p (p ++ t)).mpr ⟨t, rfl⟩

theorem pyIntMap_eq_some : ∀ {cs : List Char} {ds : List Nat},
    pyIntMap cs = some ds →
    ds = cs.map digitVal ∧ ∀ c ∈ cs, 48 ≤ c.toNat ∧ c.toNat ≤ 57
  | [], ds => by
    intro h
    simp only [pyIntMap, Option.some.injEq] at h
    subst h
    simp
  | c :: cs, ds => by
    intro h
    by_cases hd : 48 ≤ c.toNat ∧ c.toNat ≤ 57
    · cases htl : pyIntMap cs with
      | none => simp [pyIntMap, pyDigit, hd, htl] at h
      | some ds0 =>
        obtain ⟨rfl, hall⟩ := pyIntMap_eq_some htl
        simp only [pyIntMap, pyDigit, if_pos hd, htl, Option.some.injEq] at h
        subst h
        refine ⟨by simp [digitVal], ?_⟩
        intro x hx
        rcases List.mem_cons.mp hx with rfl | hx
        · exact hd
        · exact hall x hx
    · simp [pyIntMap, pyDigit, hd] at h

theorem pyIntMap_of_digits : ∀ {cs : List Char},
    (∀ c ∈ cs, 48 ≤ c.toNat ∧ c.toNat ≤ 57) →
    pyIntMap cs = some (cs.map digitVal)
  | [], _ => rfl
  | c :: cs, h => by
    have hc := h c (by simp)
    have htl := pyIntMap_of_digits (fun x hx => h x (List.mem_cons_of_mem c hx))
    simp [pyIntMap, pyDigit, hc, htl, digitVal]

theorem pyIntMap_none_of {cs : List Char}
    (h : ∃ c ∈ cs, ¬(48 ≤ c.toNat ∧ c.toNat ≤ 57)) : pyIntMap cs = none := by
  cases hm : pyIntMap cs with
  | none => rfl
  | some ds =>
    obtain ⟨c, hc, hnd⟩ := h
    exact absurd ((pyIntMap_eq_some hm).2 c hc) hnd

theorem digitVal_le_nine {c : Char} (h : 48 ≤ c.toNat ∧ c.toNat ≤ 57) :
    digitVal c ≤ 9 := by
  unfold digitVal; omega

theorem digit_foldl_shift (l : List Nat) (a : Nat) :
    l.foldl (fun x d => x * 10 + d) a =
      a * 10 ^ l.length + l.foldl (fun x d => x * 10 + d) 0 := by
  induction l generalizing a with
  | nil => simp
  | cons d t ih =>
    simp only [List.foldl_cons, List.length_cons]
    rw [ih (a * 10 + d), ih (0 * 10 + d)]
    ring

theorem digit_foldl_lt (l : List Nat) (h : ∀ d ∈ l, d ≤ 9) :
    l.foldl (fun x d => x * 10 + d) 0 < 10 ^ l.length := by
  induction l with
  | nil => simp
  | cons d t ih =>
    have hd : d ≤ 9 := h d (by simp)
    have ht := ih (fun x hx => h x (List.mem_cons_of_mem d hx))
    simp only [List.foldl_cons, List.length_cons]
    rw [digit_foldl_shift t (0 * 10 + d)]
    have : 10 ^ (t.length + 1) = 10 * 10 ^ t.length := by ring
    rw [this]
    nlinarith [pow_pos (by norm_num : (0:ℕ) < 10) t.length]

theorem luhn_checksum_le_nine (l : List Nat) : luhn_checksum l ≤ 9 :=
  Nat.le_of_lt_succ (Nat.mod_lt _ (by norm_num))

theorem pyStr_digit {d : Nat} (h : d ≤ 9) : pyStr d = [Nat.digitChar d] := by
  interval_cases d <;> rfl

theorem digitChar_digitVal {c : Char} (h : 48 ≤ c.toNat ∧ c.toNat ≤ 57) :
    Nat.digitChar (digitVal c) = c := by
  apply charToNat_inj
  unfold digitVal
  obtain ⟨h1, h2⟩ := h
  set k := c.toNat with hk
  interval_cases k <;> rfl

theorem joinStr_digits {l : List Nat} (h : ∀ x ∈ l, x ≤ 9) :
    joinStr l = l.map Nat.digitChar := by
  induction l with
  | nil => rfl
  | cons d t ih =>
    have hd := h d (by simp)
    have ht := ih (fun x hx => h x (List.mem_cons_of_mem d hx))
    simp only [joinStr, List.map_cons, List.flatten_cons] at ht ⊢
    rw [pyStr_digit hd, ht]
    rfl

theorem joinStr_length {l : List Nat} (h : ∀ x ∈ l, x ≤ 9) :
    (joinStr l).length = l.length := by
  rw [joinStr_digits h, List.length_map]

theorem joinStr_append (a b : List Nat) :
    joinStr (a ++ b) = joinStr a ++ joinStr b := by
  simp [joinStr]

theorem joinStr_map_digitVal {cs : List Char}
    (h : ∀ c ∈ cs, 48 ≤ c.toNat ∧ c.toNat ≤ 57) :
    joinStr (cs.map digitVal) = cs := by
  rw [joinStr_digits, List.map_map]
  · conv_rhs => rw [← List.map_id cs]
    exact List.map_congr_left fun c hc => digitChar_digitVal (h c hc)
  · intro x hx
    obtain ⟨c, hc, rfl⟩ := List.mem_map.mp hx
    exact digitVal_le_nine (h c hc)

theorem normalize_bin6_length (b : List Char) :
    (normalize_bin6 b).length = 6 := by
  simp only [normalize_bin6, List.length_append, List.length_replicate,
    List.length_take]
  omega

theorem fillTo_length {l : List Nat} {t : Nat} (h : l.length ≤ t) (f : Nat → Nat) :
    (fillTo l t f).length = t := by
  simp [fillTo]; omega

theorem fillTo_mem {l : List Nat} {t : Nat} {f : Nat → Nat}
    (hl : ∀ x ∈ l, x ≤ 9) (hf : ∀ i, f i ≤ 9) :
    ∀ x ∈ fillTo l t f, x ≤ 9 := by
  intro x hx
  rcases List.mem_append.mp hx with hx | hx
  · exact hl x hx
  · obtain ⟨i, _, rfl⟩ := List.mem_map.mp hx
    exact hf i

theorem pyInt_eq_some {s : List Char} {n : Nat} (h : pyInt s = some n) :
    s ≠ [] ∧ (∀ c ∈ s, 48 ≤ c.toNat ∧ c.toNat ≤ 57) ∧
    n = (s.map digitVal).foldl (fun a d => a * 10 + d) 0 := by
  unfold pyInt at h
  split at h
  · exact absurd h (by simp)
  · next hne =>
    obtain ⟨ds, hds, hfold⟩ := Option.map_eq_some'.mp h
    obtain ⟨rfl, hdig⟩ := pyIntMap_eq_some hds
    exact ⟨hne, hdig, hfold.symm⟩

theorem pyInt_lt {s : List Char} {n : Nat} (h : pyInt s = some n) :
    n < 10 ^ s.length := by
  obtain ⟨-, hdig, rfl⟩ := pyInt_eq_some h
  have := digit_foldl_lt (s.map digitVal) (by
    intro x hx
    obtain ⟨c, hc, rfl⟩ := List.mem_map.mp hx
    exact digitVal_le_nine (hdig c hc))
  simpa using this

/-- The number-assembly pipeline shared by both generators: convert the
6-char BIN to digits, fill with random digits up to `t`, append the check
digit, join back to a string.  The result has length `t + 1` and starts
with the BIN. -/
theorem ccnum_spec (cs : List Char) (hdig : ∀ c ∈ cs, 48 ≤ c.toNat ∧ c.toNat ≤ 57)
    (t : Nat) (ht : cs.length ≤ t) (filler : Nat → Nat) (hfill : ∀ i, filler i ≤ 9) :
    (joinStr (fillTo (cs.map digitVal) t filler ++
        [luhn_checksum (fillTo (cs.map digitVal) t filler)])).length = t + 1 ∧
    pyStartswith cs (joinStr (fillTo (cs.map digitVal) t filler ++
        [luhn_checksum (fillTo (cs.map digitVal) t filler)])) = true := by
  have hmem : ∀ x ∈ cs.map digitVal, x ≤ 9 := by
    intro x hx
    obtain ⟨c, hc, rfl⟩ := List.mem_map.mp hx
    exact digitVal_le_nine (hdig c hc)
  have hcl_len : (fillTo (cs.map digitVal) t filler).length = t :=
    fillTo_length (by simpa using ht) filler
  have hcl_mem := @fillTo_mem (cs.map digitVal) t filler hmem hfill
  have hfull_mem : ∀ x ∈ fillTo (cs.map digitVal) t filler ++
      [luhn_checksum (fillTo (cs.map digitVal) t filler)], x ≤ 9 := by
    intro x hx
    rcases List.mem_append.mp hx with hx | hx
    · exact hcl_mem x hx
    · rw [List.mem_singleton.mp hx]
      exact luhn_checksum_le_nine _
  constructor
  · rw [joinStr_length hfull_mem]
    simp [hcl_len]
  · have hsplit : fillTo (cs.map digitVal) t filler ++
        [luhn_checksum (fillTo (cs.map digitVal) t filler)] =
        cs.map digitVal ++ ((List.range (t - (cs.map digitVal).length)).map filler ++
          [luhn_checksum (fillTo (cs.map digitVal) t filler)]) := by
      simp [fillTo]
    rw [hsplit, joinStr_append, joinStr_map_digitVal hdig]
    exact pyStartswith_self_append _ _

/-- The CVV pipeline shared by both generators: `cvv_len` random digits
joined to a string of length `cvv_len`. -/
theorem cvv_len_spec (n : Nat) (cvvd : Nat → Nat) (hcvv : ∀ i, cvvd i ≤ 9) :
    (joinStr ((List.range n).map cvvd)).length = n := by
  rw [joinStr_length]
  · simp
  · intro x hx
    obtain ⟨i, _, rfl⟩ := List.mem_map.mp hx
    exact hcvv i

/-- Characterization of a successful `random_bin_cc` run: given that the
normalized BIN is all digits, the run returns a record whose number has the
branch-selected length, starts with the normalized BIN, and whose CVV has
the branch-selected length. -/
theorem random_bin_cc_record_spec (b : List Char) (filler cvvd : Nat → Nat)
    (em ey : Nat) {ds : List Nat}
    (hds : pyIntMap (normalize_bin6 b) = some ds)
    (hfill : ∀ i, filler i ≤ 9) (hcvv : ∀ i, cvvd i ≤ 9) :
    ∃ r, random_bin_cc_record b filler cvvd em ey = some r ∧
      r.cc_number.length = (if pyStartswith ['3', '4'] (normalize_bin6 b) ||
          pyStartswith ['3', '7'] (normalize_bin6 b) then 15 else 16) ∧
      r.cvv.length = (if pyStartswith ['3', '4'] (normalize_bin6 b) ||
          pyStartswith ['3', '7'] (normalize_bin6 b) then 4 else 3) ∧
      pyStartswith (normalize_bin6 b) r.cc_number = true := by
  obtain ⟨hds_eq, hdig⟩ := pyIntMap_eq_some hds
  subst hds_eq
  have hlen6 : (normalize_bin6 b).length = 6 := normalize_bin6_length b
  cases hsw : (pyStartswith ['3', '4'] (normalize_bin6 b) ||
      pyStartswith ['3', '7'] (normalize_bin6 b)) with
  | true =>
    obtain ⟨hnum, hstart⟩ := ccnum_spec (normalize_bin6 b) hdig 14
      (by omega) filler hfill
    refine ⟨⟨joinStr (fillTo ((normalize_bin6 b).map digitVal) 14 filler ++
        [luhn_checksum (fillTo ((normalize_bin6 b).map digitVal) 14 filler)]),
        fmt02 em, pyStr ey, joinStr ((List.range 4).map cvvd)⟩, ?_, ?_, ?_, ?_⟩
    · simp [random_bin_cc_record, hsw, hds]
    · simpa [hsw] using hnum
    · simpa [hsw] using cvv_len_spec 4 cvvd hcvv
    · exact hstart
  | false =>
    obtain ⟨hnum, hstart⟩ := ccnum_spec (normalize_bin6 b) hdig 15
      (by omega) filler hfill
    refine ⟨⟨joinStr (fillTo ((normalize_bin6 b).map digitVal) 15 filler ++
        [luhn_checksum (fillTo ((normalize_bin6 b).map digitVal) 15 filler)]),
        fmt02 em, pyStr ey, joinStr ((List.range 3).map cvvd)⟩, ?_, ?_, ?_, ?_⟩
    · simp [random_bin_cc_record, hsw, hds]
    · simpa [hsw] using hnum
    · simpa [hsw] using cvv_len_spec 3 cvvd hcvv
    · exact hstart

/-- Characterization of a `random_cc_as_string` run: for every outcome of the
random sources (the brand pick, the digit pads, the fillers and CVV digits
within their documented ranges), the run returns a record whose number has
the table length for the picked brand and whose CVV length is 4 exactly for
brand key "amex". -/
theorem random_cc_record_spec (choice : Fin brands.length) (padc : Nat → Char)
    (filler cvvd : Nat → Nat) (em ey : Nat)
    (hpad : ∀ i, padc i ∈ DIGIT_CHARS)
    (hfill : ∀ i, filler i ≤ 9) (hcvv : ∀ i, cvvd i ≤ 9) :
    ∃ r, random_cc_record choice padc filler cvvd em ey = some r ∧
      r.cc_number.length = (brands.get choice).2.1 ∧
      r.cvv.length = (if (brands.get choice).2.2 == "amex" then 4 else 3) := by
  have htab := (by decide :
    ∀ i : Fin brands.length, (brands.get i).1.length < 6 ∧
      (∀ c ∈ (brands.get i).1, 48 ≤ c.toNat ∧ c.toNat ≤ 57) ∧
      15 ≤ (brands.get i).2.1) choice
  have hdchars := (by decide : ∀ c ∈ DIGIT_CHARS, 48 ≤ c.toNat ∧ c.toNat ≤ 57)
  rcases hbg : brands.get choice with ⟨pfx, L, brand⟩
  rw [hbg] at htab
  obtain ⟨hplen, hpdig, hL⟩ := htab
  dsimp only at hplen hpdig hL
  have hrbl : random_cc_bin_and_length choice padc =
      (pfx ++ (List.range (6 - pfx.length)).map padc, L, brand) := by
    unfold random_cc_bin_and_length
    rw [hbg]
    dsimp only
    rw [if_pos hplen]
  set bin6 := pfx ++ (List.range (6 - pfx.length)).map padc with hbin6
  have hbdig : ∀ c ∈ bin6, 48 ≤ c.toNat ∧ c.toNat ≤ 57 := by
    intro c hc
    rcases List.mem_append.mp hc with hc | hc
    · exact hpdig c hc
    · obtain ⟨i, _, rfl⟩ := List.mem_map.mp hc
      exact hdchars _ (hpad i)
  have hblen : bin6.length = 6 := by
    simp only [hbin6, List.length_append, List.length_map, List.length_range]
    omega
  have hmap := pyIntMap_of_digits hbdig
  obtain ⟨hnum, -⟩ := ccnum_spec bin6 hbdig (L - 1) (by omega) filler hfill
  refine ⟨⟨joinStr (fillTo (bin6.map digitVal) (L - 1) filler ++
      [luhn_checksum (fillTo (bin6.map digitVal) (L - 1) filler)]),
      fmt02 em, pyStr ey,
      joinStr ((List.range (if brand == "amex" then 4 else 3)).map cvvd)⟩, ?_, ?_, ?_⟩
  · simp only [random_cc_record, hrbl, hmap]
  · dsimp only
    rw [hnum]
    omega
  · dsimp only
    exact cvv_len_spec (if brand == "amex" then 4 else 3) cvvd hcvv

/-! ### Claim theorems -/

/-- C1, counterexample: contrary to the claim, `card_brand_type` applied to
the empty string does not return the UNKNOWN brand with the generic glyph —
the call fails instead. -/
theorem C1_empty_not_unknown :
    card_brand_type [] ≠ some (EMOJIS "unknown", "UNKNOWN") := by decide

/-- C1, amended: `card_brand_type` applied to the empty string raises: the
`startswith` checks on lines 70-72 all fail to match, so Python evaluates
`int(cc[:4])` on line 72, and `int("")` raises `ValueError`; no
(glyph, label) pair is returned. -/
theorem C1_empty_raises : card_brand_type [] = none := by decide

/-- C2: evaluating the code at the failing input.  The round-trip the claim
states fails: `luhn_checksum [1] = 9`, yet `[1, 9]` does not pass Luhn
validation (its transformed sum is 11); the digit that would make the
sequence Luhn-valid is 8.  Likewise for the classic payload 7992739871 the
code returns 4 where the Luhn-valid check digit is 3: the loop doubles the
wrong alternate digits of the payload (even reversed positions are kept
unchanged, but after the check digit is appended those digits sit at odd
positions of the full sequence). -/
theorem C2_luhn_roundtrip_fails :
    luhn_checksum [1] = 9 ∧
    luhnValidate ([1] ++ [luhn_checksum [1]]) = false ∧
    luhnValidate [1, 8] = true ∧
    luhn_checksum [7, 9, 9, 2, 7, 3, 9, 8, 7, 1] = 4 ∧
    luhnValidate ([7, 9, 9, 2, 7, 3, 9, 8, 7, 1] ++
      [luhn_checksum [7, 9, 9, 2, 7, 3, 9, 8, 7, 1]]) = false ∧
    luhnValidate [7, 9, 9, 2, 7, 3, 9, 8, 7, 1, 3] = true := by decide

/-- C3: evaluating the code at a failing outcome of the random sources.  With
the brand pick landing on the VISA row, all pad characters `'0'` and all
filler digits 0 (an outcome the random sources can produce), both
generators emit the number 4000000000000006, which fails Luhn validation —
the check digit that would validate it is 2, not 6. -/
theorem C3_generated_number_fails_luhn :
    ((random_cc_record ⟨0, by decide⟩ (fun _ => '0') (fun _ => 0) (fun _ => 0)
        1 24).map (fun r => (r.cc_number, luhnValidate (r.cc_number.map digitVal))) =
      some ("4000000000000006".toList, false)) ∧
    ((random_bin_cc_record "400000".toList (fun _ => 0) (fun _ => 0)
        1 24).map (fun r => (r.cc_number, luhnValidate (r.cc_number.map digitVal))) =
      some ("4000000000000006".toList, false)) ∧
    luhnValidate ("4000000000000002".toList.map digitVal) = true := by decide

/-- C8: if the normalized 6-character form of the BIN argument contains a
character that is not an ASCII digit, `random_bin_cc` fails during
`list(map(int, bin6))` (line 131) and returns no record; in particular
for the input "ab1234". -/
theorem C8_nondigit_bin_fails :
    (∀ (b : List Char) (filler cvvd : Nat → Nat) (em ey : Nat),
      (∃ c ∈ normalize_bin6 b, ¬(48 ≤ c.toNat ∧ c.toNat ≤ 57)) →
      random_bin_cc_record b filler cvvd em ey = none) ∧
    (∀ (filler cvvd : Nat → Nat) (em ey : Nat),
      random_bin_cc_record "ab1234".toList filler cvvd em ey = none) := by
  constructor
  · intro b filler cvvd em ey h
    have hnone := pyIntMap_none_of h
    simp [random_bin_cc_record, hnone]
  · intro filler cvvd em ey
    have hnone : pyIntMap (normalize_bin6 "ab1234".toList) = none := by decide
    simp only [random_bin_cc_record, hnone]

/-- C8 witness: the first part of the claim theorem applied to the concrete
input "ab1234" (whose normalized form contains the non-digit character
`'a'`) and a fixed outcome of the random sources. -/
theorem C8_witness :
    random_bin_cc_record "ab1234".toList (fun _ => 0) (fun _ => 0) 1 24 = none :=
  C8_nondigit_bin_fails.1 "ab1234".toList (fun _ => 0) (fun _ => 0) 1 24
    ⟨'a', by decide, by decide⟩

/-- C4, counterexample: contrary to the claim, not every input starting with
"62" classifies as DISCOVER — for "62x" (which starts with "62") the call
fails instead, because `int("62x")` on line 72 raises `ValueError`. -/
theorem C4_62_not_always_discover :
    pyStartswith ['6', '2'] ['6', '2', 'x'] = true ∧
    card_brand_type ['6', '2', 'x'] ≠ some (EMOJIS "discover", "DISCOVER") ∧
    card_brand_type ['6', '2', 'x'] = none := by decide

/-- C4, amended: every input starting with "62" on which the integer parse of
the first four characters succeeds (in particular every all-digit "62..."
input) classifies as DISCOVER, because the rule for "6" is evaluated before
the UnionPay rule; inputs starting with "62" whose first four characters
fail integer parsing raise instead; and no input at all ever reaches the
UNIONPAY result. -/
theorem C4_62_discover_unionpay_unreachable :
    (∀ (cc : List Char) (n : Nat), pyStartswith ['6', '2'] cc = true →
      pyInt (cc.take 4) = some n →
      card_brand_type cc = some (EMOJIS "discover", "DISCOVER")) ∧
    (∀ cc : List Char, card_brand_type cc ≠ some (EMOJIS "unionpay", "UNIONPAY")) := by
  constructor
  · intro cc n h62 hint
    obtain ⟨t, rfl⟩ := (pyStartswith_iff _ _).mp h62
    simp only [List.cons_append, List.nil_append] at hint ⊢
    simp only [List.take_succ_cons] at hint
    have hne : ¬(2221 ≤ n ∧ n ≤ 2720) := by
      obtain ⟨-, hdig, hn⟩ := pyInt_eq_some hint
      have h6v : digitVal '6' = 6 := rfl
      have h2v : digitVal '2' = 2 := rfl
      rcases t with - | ⟨a, - | ⟨b, u⟩⟩
      · simp only [List.take_nil, List.map_cons, List.map_nil, List.foldl_cons,
          List.foldl_nil] at hn
        rw [h6v, h2v] at hn
        omega
      · have hva := digitVal_le_nine (hdig a (by simp))
        simp only [List.take_succ_cons, List.take_nil, List.map_cons,
          List.map_nil, List.foldl_cons, List.foldl_nil] at hn
        rw [h6v, h2v] at hn
        omega
      · simp only [List.take_succ_cons, List.take_zero, List.map_cons,
          List.map_nil, List.foldl_cons, List.foldl_nil] at hn
        rw [h6v, h2v] at hn
        omega
    simp +decide [card_brand_type, pyStartswith, hint, hne]
  · intro cc h
    simp only [card_brand_type] at h
    split at h
    · exact absurd h (by decide)
    split at h
    · exact absurd h (by decide)
    split at h
    · exact Option.noConfusion h
    split at h
    · exact absurd h (by decide)
    split at h
    · exact absurd h (by decide)
    split at h
    · exact absurd h (by decide)
    rename_i h6
    split at h
    · exact absurd h (by decide)
    split at h
    · exact absurd h (by decide)
    split at h
    · rename_i h62
      obtain ⟨t, rfl⟩ := (pyStartswith_iff _ _).mp h62
      refine absurd ?_ h6
      simp [pyStartswith, List.cons_append]
    split at h
    · exact absurd h (by decide)
    · exact absurd h (by decide)

/-- C4 witness: the amended claim instantiated at the all-digit input
"6262001234567890" (DISCOVER result) and at a concrete input for the
unreachability part. -/
theorem C4_witness :
    card_brand_type "6262001234567890".toList =
      some (EMOJIS "discover", "DISCOVER") ∧
    card_brand_type "6200000000000000".toList ≠
      some (EMOJIS "unionpay", "UNIONPAY") :=
  ⟨C4_62_discover_unionpay_unreachable.1 _ 6262 (by decide) (by decide),
   C4_62_discover_unionpay_unreachable.2 _⟩

/-- C9: every string that does not start with "4" and whose first four
characters parse as an integer in [2221, 2720] classifies as MASTERCARD;
every string starting with "2221" or "2720" classifies as MASTERCARD; and
every string starting with "2219" or "2721" classifies as UNKNOWN. -/
theorem C9_mastercard_range :
    (∀ (cc : List Char) (n : Nat), pyStartswith ['4'] cc = false →
      pyInt (cc.take 4) = some n → 2221 ≤ n → n ≤ 2720 →
      card_brand_type cc = some (EMOJIS "mastercard", "MASTERCARD")) ∧
    (∀ t : List Char, card_brand_type (['2', '2', '2', '1'] ++ t) =
      some (EMOJIS "mastercard", "MASTERCARD")) ∧
    (∀ t : List Char, card_brand_type (['2', '7', '2', '0'] ++ t) =
      some (EMOJIS "mastercard", "MASTERCARD")) ∧
    (∀ t : List Char, card_brand_type (['2', '2', '1', '9'] ++ t) =
      some (EMOJIS "unknown", "UNKNOWN")) ∧
    (∀ t : List Char, card_brand_type (['2', '7', '2', '1'] ++ t) =
      some (EMOJIS "unknown", "UNKNOWN")) := by
  refine ⟨?_, ?_, ?_, ?_, ?_⟩
  · intro cc n h4 hint h1 h2
    have hlt := pyInt_lt hint
    have hcc4 : 4 ≤ cc.length := by
      by_contra hcon
      push_neg at hcon
      have htk : cc.take 4 = cc := List.take_of_length_le (by omega)
      rw [htk] at hlt
      have hpow : (10 : Nat) ^ cc.length ≤ 10 ^ 3 :=
        Nat.pow_le_pow_right (by norm_num) (by omega)
      norm_num at hpow
      omega
    rcases cc with - | ⟨c0, - | ⟨c1, - | ⟨c2, - | ⟨c3, r⟩⟩⟩⟩
    · simp at hcc4
    · simp at hcc4
    · simp at hcc4
    · simp at hcc4
    obtain ⟨-, hdig, hn⟩ := pyInt_eq_some hint
    simp only [List.take_succ_cons, List.take_zero] at hint hdig hn
    simp only [List.map_cons, List.map_nil, List.foldl_cons, List.foldl_nil] at hn
    have hb0 := hdig c0 (by simp)
    have hb1 := hdig c1 (by simp)
    have hb2 := hdig c2 (by simp)
    have hb3 := hdig c3 (by simp)
    have hd1 := digitVal_le_nine hb1
    have hd2 := digitVal_le_nine hb2
    have hd3 := digitVal_le_nine hb3
    have hd0 : digitVal c0 = 2 := by omega
    have hc0 : c0 = '2' := by
      apply charToNat_inj
      have : ('2' : Char).toNat = 50 := rfl
      unfold digitVal at hd0
      omega
    subst hc0
    simp +decide [card_brand_type, pyStartswith, List.take_succ_cons,
      List.take_zero, hint, h1, h2]
  · intro t
    have htk : List.take 4 (['2', '2', '2', '1'] ++ t) = ['2', '2', '2', '1'] := by
      simp
    have hpi : pyInt ['2', '2', '2', '1'] = some 2221 := by decide
    simp +decide [card_brand_type, pyStartswith, htk, hpi]
  · intro t
    have htk : List.take 4 (['2', '7', '2', '0'] ++ t) = ['2', '7', '2', '0'] := by
      simp
    have hpi : pyInt ['2', '7', '2', '0'] = some 2720 := by decide
    simp +decide [card_brand_type, pyStartswith, htk, hpi]
  · intro t
    have htk : List.take 4 (['2', '2', '1', '9'] ++ t) = ['2', '2', '1', '9'] := by
      simp
    have hpi : pyInt ['2', '2', '1', '9'] = some 2219 := by decide
    simp +decide [card_brand_type, pyStartswith, htk, hpi]
  · intro t
    have htk : List.take 4 (['2', '7', '2', '1'] ++ t) = ['2', '7', '2', '1'] := by
      simp
    have hpi : pyInt ['2', '7', '2', '1'] = some 2721 := by decide
    simp +decide [card_brand_type, pyStartswith, htk, hpi]

/-- C9 witness: the range rule instantiated at the concrete in-range input
"2500990000000000", and the boundary parts at concrete inputs. -/
theorem C9_witness :
    card_brand_type "2500990000000000".toList =
      some (EMOJIS "mastercard", "MASTERCARD") ∧
    card_brand_type (['2', '2', '2', '1'] ++ "000000000000".toList) =
      some (EMOJIS "mastercard", "MASTERCARD") ∧
    card_brand_type (['2', '2', '1', '9'] ++ "000000000000".toList) =
      some (EMOJIS "unknown", "UNKNOWN") :=
  ⟨C9_mastercard_range.1 _ 2500 (by decide) (by decide) (by decide) (by decide),
   C9_mastercard_range.2.1 _, C9_mastercard_range.2.2.2.1 _⟩

/-- C5: for every outcome of the random sources (within their documented
ranges), a number produced by `random_cc_as_string` has the table length of
the picked brand row — 15 or 16, and 15 exactly for brand key "amex" — and
a number produced by `random_bin_cc` has length 15 or 16, 15 exactly when
the normalized prefix starts with "34" or "37". -/
theorem C5_generated_lengths :
    (∀ (choice : Fin brands.length) (padc : Nat → Char)
       (filler cvvd : Nat → Nat) (em ey : Nat),
      (∀ i, padc i ∈ DIGIT_CHARS) → (∀ i, filler i ≤ 9) → (∀ i, cvvd i ≤ 9) →
      ∃ r, random_cc_record choice padc filler cvvd em ey = some r ∧
        r.cc_number.length = (brands.get choice).2.1 ∧
        (r.cc_number.length = 15 ∨ r.cc_number.length = 16) ∧
        (r.cc_number.length = 15 ↔ (brands.get choice).2.2 = "amex")) ∧
    (∀ (b : List Char) (filler cvvd : Nat → Nat) (em ey : Nat) (ds : List Nat),
      pyIntMap (normalize_bin6 b) = some ds →
      (∀ i, filler i ≤ 9) → (∀ i, cvvd i ≤ 9) →
      ∃ r, random_bin_cc_record b filler cvvd em ey = some r ∧
        (r.cc_number.length = 15 ∨ r.cc_number.length = 16) ∧
        (r.cc_number.length = 15 ↔ (pyStartswith ['3', '4'] (normalize_bin6 b) ||
          pyStartswith ['3', '7'] (normalize_bin6 b)) = true)) := by
  constructor
  · intro choice padc filler cvvd em ey hpad hfill hcvv
    obtain ⟨r, hr, hlen, -⟩ :=
      random_cc_record_spec choice padc filler cvvd em ey hpad hfill hcvv
    have hfacts := (by decide :
      ∀ i : Fin brands.length,
        ((brands.get i).2.1 = 15 ∨ (brands.get i).2.1 = 16) ∧
        ((brands.get i).2.1 = 15 ↔ (brands.get i).2.2 = "amex")) choice
    exact ⟨r, hr, hlen, by rw [hlen]; exact hfacts.1, by rw [hlen]; exact hfacts.2⟩
  · intro b filler cvvd em ey ds hds hfill hcvv
    obtain ⟨r, hr, hlen, -, -⟩ :=
      random_bin_cc_record_spec b filler cvvd em ey hds hfill hcvv
    refine ⟨r, hr, ?_, ?_⟩
    · rw [hlen]
      split <;> simp
    · rw [hlen]
      cases hsw : (pyStartswith ['3', '4'] (normalize_bin6 b) ||
          pyStartswith ['3', '7'] (normalize_bin6 b)) <;> simp [hsw]

/-- C5 witness: the claim theorem instantiated at the VISA table row with all
pads `'0'` and zero fillers, and at the BIN "34" with zero fillers. -/
theorem C5_witness :
    (∃ r, random_cc_record ⟨0, by decide⟩ (fun _ => '0') (fun _ => 0)
        (fun _ => 0) 1 24 = some r ∧
      r.cc_number.length = (brands.get ⟨0, by decide⟩).2.1 ∧
      (r.cc_number.length = 15 ∨ r.cc_number.length = 16) ∧
      (r.cc_number.length = 15 ↔ (brands.get ⟨0, by decide⟩).2.2 = "amex")) ∧
    (∃ r, random_bin_cc_record "34".toList (fun _ => 0) (fun _ => 0) 1 24 =
        some r ∧
      (r.cc_number.length = 15 ∨ r.cc_number.length = 16) ∧
      (r.cc_number.length = 15 ↔
        (pyStartswith ['3', '4'] (normalize_bin6 "34".toList) ||
          pyStartswith ['3', '7'] (normalize_bin6 "34".toList)) = true)) :=
  ⟨C5_generated_lengths.1 ⟨0, by decide⟩ (fun _ => '0') (fun _ => 0)
      (fun _ => 0) 1 24 (fun _ => List.mem_cons_self '0' _)
      (fun _ => Nat.zero_le 9) (fun _ => Nat.zero_le 9),
   C5_generated_lengths.2 "34".toList (fun _ => 0) (fun _ => 0) 1 24
      [3, 4, 0, 0, 0, 0] (by decide) (fun _ => Nat.zero_le 9)
      (fun _ => Nat.zero_le 9)⟩

/-- C6: for every outcome of the random sources (within their documented
ranges), the CVV produced by `random_cc_as_string` has length 4 exactly when
the picked brand key is "amex" (else 3), and the CVV produced by
`random_bin_cc` has length 4 exactly when the normalized prefix starts with
"34" or "37" (else 3). -/
theorem C6_cvv_lengths :
    (∀ (choice : Fin brands.length) (padc : Nat → Char)
       (filler cvvd : Nat → Nat) (em ey : Nat),
      (∀ i, padc i ∈ DIGIT_CHARS) → (∀ i, filler i ≤ 9) → (∀ i, cvvd i ≤ 9) →
      ∃ r, random_cc_record choice padc filler cvvd em ey = some r ∧
        (r.cvv.length = 4 ↔ (brands.get choice).2.2 = "amex") ∧
        ((brands.get choice).2.2 ≠ "amex" → r.cvv.length = 3)) ∧
    (∀ (b : List Char) (filler cvvd : Nat → Nat) (em ey : Nat) (ds : List Nat),
      pyIntMap (normalize_bin6 b) = some ds →
      (∀ i, filler i ≤ 9) → (∀ i, cvvd i ≤ 9) →
      ∃ r, random_bin_cc_record b filler cvvd em ey = some r ∧
        (r.cvv.length = 4 ↔ (pyStartswith ['3', '4'] (normalize_bin6 b) ||
          pyStartswith ['3', '7'] (normalize_bin6 b)) = true) ∧
        ((pyStartswith ['3', '4'] (normalize_bin6 b) ||
          pyStartswith ['3', '7'] (normalize_bin6 b)) = false →
          r.cvv.length = 3)) := by
  constructor
  · intro choice padc filler cvvd em ey hpad hfill hcvv
    obtain ⟨r, hr, -, hcl⟩ :=
      random_cc_record_spec choice padc filler cvvd em ey hpad hfill hcvv
    refine ⟨r, hr, ?_, ?_⟩
    · rw [hcl]
      cases hbe : ((brands.get choice).2.2 == "amex") with
      | true =>
        have heq : (brands.get choice).2.2 = "amex" := by simpa using hbe
        rw [heq]
        simp
      | false =>
        have hne : (brands.get choice).2.2 ≠ "amex" := by simpa using hbe
        exact iff_of_false (by norm_num) hne
    · intro hne
      rw [hcl, if_neg (by simpa using hne)]
  · intro b filler cvvd em ey ds hds hfill hcvv
    obtain ⟨r, hr, -, hcl, -⟩ :=
      random_bin_cc_record_spec b filler cvvd em ey hds hfill hcvv
    refine ⟨r, hr, ?_, ?_⟩
    · rw [hcl]
      cases hsw : (pyStartswith ['3', '4'] (normalize_bin6 b) ||
          pyStartswith ['3', '7'] (normalize_bin6 b)) <;> simp [hsw]
    · intro hf
      rw [hcl]
      simp [hf]

/-- C6 witness: the claim theorem instantiated at the AMEX table row "34"
(CVV length 4) and at the non-AMEX BIN "400000" (CVV length 3). -/
theorem C6_witness :
    (∃ r, random_cc_record ⟨8, by decide⟩ (fun _ => '0') (fun _ => 0)
        (fun _ => 0) 1 24 = some r ∧
      (r.cvv.length = 4 ↔ (brands.get ⟨8, by decide⟩).2.2 = "amex") ∧
      ((brands.get ⟨8, by decide⟩).2.2 ≠ "amex" → r.cvv.length = 3)) ∧
    (∃ r, random_bin_cc_record "400000".toList (fun _ => 0) (fun _ => 0)
        1 24 = some r ∧
      (r.cvv.length = 4 ↔
        (pyStartswith ['3', '4'] (normalize_bin6 "400000".toList) ||
          pyStartswith ['3', '7'] (normalize_bin6 "400000".toList)) = true) ∧
      ((pyStartswith ['3', '4'] (normalize_bin6 "400000".toList) ||
        pyStartswith ['3', '7'] (normalize_bin6 "400000".toList)) = false →
        r.cvv.length = 3)) :=
  ⟨C6_cvv_lengths.1 ⟨8, by decide⟩ (fun _ => '0') (fun _ => 0) (fun _ => 0)
      1 24 (fun _ => List.mem_cons_self '0' _) (fun _ => Nat.zero_le 9)
      (fun _ => Nat.zero_le 9),
   C6_cvv_lengths.2 "400000".toList (fun _ => 0) (fun _ => 0) 1 24
      [4, 0, 0, 0, 0, 0] (by decide) (fun _ => Nat.zero_le 9)
      (fun _ => Nat.zero_le 9)⟩

/-- C7: the BIN argument of `random_bin_cc` is truncated to its first 6
characters when longer and right-padded with `'0'` when shorter; whenever
generation succeeds the produced number starts with exactly the normalized
6-character prefix; and in particular "34" normalizes to "340000" and
yields a 15-digit number with a 4-digit CVV. -/
theorem C7_prefix_normalization :
    (∀ b : List Char, (normalize_bin6 b).length = 6 ∧
      (6 ≤ b.length → normalize_bin6 b = b.take 6) ∧
      (b.length ≤ 6 →
        normalize_bin6 b = b ++ List.replicate (6 - b.length) '0')) ∧
    (∀ (b : List Char) (filler cvvd : Nat → Nat) (em ey : Nat) (ds : List Nat),
      pyIntMap (normalize_bin6 b) = some ds →
      (∀ i, filler i ≤ 9) → (∀ i, cvvd i ≤ 9) →
      ∃ r, random_bin_cc_record b filler cvvd em ey = some r ∧
        pyStartswith (normalize_bin6 b) r.cc_number = true) ∧
    (normalize_bin6 "34".toList = "340000".toList ∧
      ∀ (filler cvvd : Nat → Nat) (em ey : Nat),
        (∀ i, filler i ≤ 9) → (∀ i, cvvd i ≤ 9) →
        ∃ r, random_bin_cc_record "34".toList filler cvvd em ey = some r ∧
          r.cc_number.length = 15 ∧ r.cvv.length = 4) := by
  refine ⟨?_, ?_, ?_, ?_⟩
  · intro b
    refine ⟨normalize_bin6_length b, ?_, ?_⟩
    · intro h6
      have htk : (b.take 6).length = 6 := by
        simp [List.length_take]
        omega
      simp [normalize_bin6, htk]
    · intro h6
      have htk : b.take 6 = b := List.take_of_length_le h6
      simp [normalize_bin6, htk]
  · intro b filler cvvd em ey ds hds hfill hcvv
    obtain ⟨r, hr, -, -, hs⟩ :=
      random_bin_cc_record_spec b filler cvvd em ey hds hfill hcvv
    exact ⟨r, hr, hs⟩
  · decide
  · intro filler cvvd em ey hfill hcvv
    obtain ⟨r, hr, hlen, hcl, -⟩ :=
      random_bin_cc_record_spec "34".toList filler cvvd em ey
        (by decide :
          pyIntMap (normalize_bin6 "34".toList) = some [3, 4, 0, 0, 0, 0])
        hfill hcvv
    have hsw : (pyStartswith ['3', '4'] (normalize_bin6 "34".toList) ||
        pyStartswith ['3', '7'] (normalize_bin6 "34".toList)) = true := by decide
    rw [hsw] at hlen hcl
    simp only [if_pos rfl] at hlen hcl
    exact ⟨r, hr, hlen, hcl⟩

/-- C7 witness: the claim theorem instantiated at the input "34" with zero
fillers — its normalization facts, the generated number starting with
"340000", and the 15/4 lengths. -/
theorem C7_witness :
    (normalize_bin6 "34".toList).length = 6 ∧
    normalize_bin6 "34".toList =
      "34".toList ++ List.replicate (6 - "34".toList.length) '0' ∧
    (∃ r, random_bin_cc_record "34".toList (fun _ => 0) (fun _ => 0) 1 24 =
        some r ∧
      pyStartswith (normalize_bin6 "34".toList) r.cc_number = true) ∧
    (∃ r, random_bin_cc_record "34".toList (fun _ => 0) (fun _ => 0) 1 24 =
        some r ∧
      r.cc_number.length = 15 ∧ r.cvv.length = 4) :=
  ⟨(C7_prefix_normalization.1 "34".toList).1,
   (C7_prefix_normalization.1 "34".toList).2.2 (by decide),
   C7_prefix_normalization.2.1 "34".toList (fun _ => 0) (fun _ => 0) 1 24
      [3, 4, 0, 0, 0, 0] (by decide) (fun _ => Nat.zero_le 9)
      (fun _ => Nat.zero_le 9),
   C7_prefix_normalization.2.2.2 (fun _ => 0) (fun _ => 0) 1 24
      (fun _ => Nat.zero_le 9) (fun _ => Nat.zero_le 9)⟩

/-- C10: a call of `luhn_checksum` leaves the caller's list unchanged — the
`digits[:]` copy on line 144 rebinds the local name to a fresh object, so
the in-place `reverse()` on line 145 mutates the copy only — and the
returned check digit agrees with the pure value of the function. -/
theorem C10_luhn_checksum_frame :
    ∀ digits : List Nat,
      (luhn_checksum_call digits).1.callerList = digits ∧
      (luhn_checksum_call digits).2 = luhn_checksum digits := by
  intro digits
  exact ⟨rfl, rfl⟩
